import Mathlib

/-!
Verification of the electrophilicity log-extraction pipeline.

The repository holds two near-duplicate Python scripts,
`write_electro_nbo.py` and `write_electro_properties.py`.  Both read a
quantum-chemistry log, extract HOMO/LUMO orbital energies and per-atom
charge tables, compute global and local reactivity indices, and write
them out.  This file gives a shallow embedding of the pure core of the
two scripts: Python floats are modelled as exact rationals, Python lists
as `List`, fallible code as `Except PyErr`.  The functions keep the
source names, in namespaces `Nbo` (for `write_electro_nbo.py`) and
`Props` (for `write_electro_properties.py`).
-/

/-- Kinds of Python run-time failure that the modelled code can raise:
`indexError` is an out-of-range list access (Python `IndexError`, whose
message is the fixed string "list index out of range" and carries no
further data), `valueError` a failed `float()` conversion, `zeroDivision`
a zero denominator (`ZeroDivisionError`), and `exception` an explicitly
raised `Exception` with its message. -/
inductive PyErr where
  | indexError : PyErr
  | valueError : PyErr
  | zeroDivision : PyErr
  | exception : String → PyErr
deriving DecidableEq

deriving instance DecidableEq for Except

/-- The empty string, used as a default for total list access in statements. -/
def emptyStr : String := ""

/-- Does the character list `l` start with the character list `pat`? -/
def charStarts : List Char → List Char → Bool
  | _, [] => true
  | [], _ :: _ => false
  | a :: as, b :: bs => a == b && charStarts as bs

/-- Does `pat` occur as a contiguous sublist of the second argument?
Models the Python substring test `pat in s`. -/
def charHasSub (pat : List Char) : List Char → Bool
  | [] => pat.isEmpty
  | c :: rest => charStarts (c :: rest) pat || charHasSub pat rest

/-- Python `s.startswith(pat)`. -/
def strStarts (s pat : String) : Bool := charStarts s.data pat.data

/-- Python substring containment `pat in s`. -/
def strHasSub (s pat : String) : Bool := charHasSub pat.data s.data

/-- Is `c` one of the whitespace characters Python `str.split()` splits on? -/
def isWs (c : Char) : Bool :=
  c == ' ' || c == '\t' || c == '\n' || c == '\r'

/-- Worker for `pySplit`: `acc` holds the current token, reversed. -/
def splitAux : List Char → List Char → List String
  | [], acc => if acc.isEmpty then [] else [String.mk acc.reverse]
  | c :: rest, acc =>
    if isWs c then
      if acc.isEmpty then splitAux rest []
      else String.mk acc.reverse :: splitAux rest []
    else splitAux rest (c :: acc)

/-- Python `s.split()` with no argument: split on runs of whitespace,
dropping empty tokens. -/
def pySplit (s : String) : List String := splitAux s.data []

/-- Value of a list of decimal digit characters. -/
def digitsToNat (l : List Char) : Nat :=
  l.foldl (fun a c => a * 10 + (c.toNat - 48)) 0

/-- Parse the digit run after an exponent sign; the whole remainder must
be digits. -/
def expDigits (sgn : Int) (t : List Char) : Except PyErr Int :=
  let q := t.span Char.isDigit
  if q.1 = [] ∨ q.2 ≠ [] then .error .valueError
  else .ok (sgn * (digitsToNat q.1 : Int))

/-- Parse the optionally signed exponent of a scientific-notation literal. -/
def expPart : List Char → Except PyErr Int
  | '-' :: r => expDigits (-1) r
  | '+' :: r => expDigits 1 r
  | t => expDigits 1 t

/-- Model of Python `float(s)` on the plain decimal and scientific
literals that occur in these logs (optional sign, digits, optional
fractional part, optional exponent), returning an exact rational.  A
string of any other shape fails like Python's `ValueError`. -/
def pyFloat (s : String) : Except PyErr ℚ :=
  let signed : ℚ × List Char :=
    match s.data with
    | '-' :: t => (-1, t)
    | '+' :: t => (1, t)
    | cs => (1, cs)
  let ip := signed.2.span Char.isDigit
  let frac : List Char × List Char :=
    match ip.2 with
    | '.' :: t => t.span Char.isDigit
    | _ => ([], ip.2)
  if ip.1 = [] ∧ frac.1 = [] then .error .valueError
  else
    let mant : ℚ :=
      signed.1 * ((digitsToNat ip.1 : ℚ) + (digitsToNat frac.1 : ℚ) / (10 : ℚ) ^ frac.1.length)
    match frac.2 with
    | [] => .ok mant
    | 'e' :: t => (expPart t).map (fun e => mant * (10 : ℚ) ^ e)
    | 'E' :: t => (expPart t).map (fun e => mant * (10 : ℚ) ^ e)
    | _ => .error .valueError

example : pyFloat emptyStr = .error .valueError := by decide
example : pyFloat (String.mk ['-', '0', '.', '2', '5']) = .ok (-(1 / 4) : ℚ) := by
  simp [pyFloat, digitsToNat]
  norm_num
example : pySplit (String.mk [' ', 'a', 'b', ' ', ' ', 'c', ' ']) =
    [String.mk ['a', 'b'], String.mk ['c']] := by decide

/-- Worker for `idxWhere`, carrying the index of the first line of `raw`. -/
def idxFrom (p : String → Bool) : Nat → List String → List Nat
  | _, [] => []
  | i, l :: rest =>
    if p l then i :: idxFrom p (i + 1) rest else idxFrom p (i + 1) rest

/-- Indices of the lines satisfying `p`: the Python idiom
`[i for i, x in enumerate(raw) if p(x)]`. -/
def idxWhere (p : String → Bool) (raw : List String) : List Nat := idxFrom p 0 raw

/-- Assignment `d[k] = v` on a Python dict modelled as an association
list in insertion order: an existing key keeps its position and gets the
new value, a new key is appended at the end. -/
def dictInsert (d : List (String × α)) (k : String) (v : α) : List (String × α) :=
  if k ∈ d.map Prod.fst then
    d.map (fun q => if q.1 = k then (k, v) else q)
  else d ++ [(k, v)]

namespace Nbo

/-- Marker constant of `write_electro_nbo.py` (line 23): thirty
asterisks, then "Gaussian NBO Version 3.1", then thirty asterisks. -/
def SECTION_HEADER : String :=
  String.mk (List.replicate 30 '*') ++ "Gaussian NBO Version 3.1" ++
    String.mk (List.replicate 30 '*')

/-- Table header marker (source line 24). -/
def TABLE_HEADER : String := " Summary of Natural Population Analysis:"

/-- Table terminator marker (source line 25): a space then seventy-one
equals signs. -/
def TABLE_END : String :=
  " " ++ String.mk (List.replicate 71 '=')

/-- Anchor substring for the SCF population analysis block. -/
def popMarker : String := "Population analysis using the SCF density."

/-- Anchor substring for occupied-orbital eigenvalue lines (two spaces
after "Alpha", as in the source). -/
def occMarker : String := "Alpha  occ. eigenvalues"

/-- Anchor substring for virtual-orbital eigenvalue lines. -/
def virtMarker : String := "Alpha virt. eigenvalues"

/-- The element symbol of hydrogen, whose rows are dropped. -/
def hSym : String := "H"

/-- Message of the exception raised on a charge-table label mismatch
(source line 133). -/
def mismatchMsg : String := "Tables do not correspond."

/-- `get_homo_lumo` of `write_electro_nbo.py` (lines 32-53), on the log
text already split into lines: slice the text from the last line
containing `popMarker`, read the HOMO as the last whitespace token of
the last line containing `occMarker` in that slice, and the LUMO as the
token at index 4 of the first line containing `virtMarker` in that
slice.  Empty-sequence indexing is Python's `IndexError`. -/
def get_homo_lumo (raw_text : List String) : Except PyErr (ℚ × ℚ) :=
  match (idxWhere (fun x => strHasSub x popMarker) raw_text).getLast? with
  | none => .error .indexError
  | some k =>
    let txt := raw_text.drop k
    match (txt.filter (fun l => strHasSub l occMarker)).getLast? with
    | none => .error .indexError
    | some occLine =>
      match (pySplit occLine).getLast? with
      | none => .error .indexError
      | some htok =>
        match pyFloat htok with
        | .error e => .error e
        | .ok homo =>
          match (txt.filter (fun l => strHasSub l virtMarker)).head? with
          | none => .error .indexError
          | some vLine =>
            match (pySplit vLine)[4]? with
            | none => .error .indexError
            | some ltok =>
              match pyFloat ltok with
              | .error e => .error e
              | .ok lumo => .ok (homo, lumo)

/-- `get_properties` of `write_electro_nbo.py` (lines 56-73).  Python
raises `ZeroDivisionError` at `1 / (2 * hardness)` when the denominator
is zero, and at `1 / global_electrophilicity` when the electrophilicity
is zero; both are modelled by explicit checks on the exact denominator
expressions the source divides by. -/
def get_properties (homo lumo : ℚ) : Except PyErr (ℚ × ℚ × ℚ × ℚ × ℚ) :=
  let kcal_mol_homo : ℚ := 27.212 * homo
  let kcal_mol_lumo : ℚ := 27.212 * lumo
  let electronegativity : ℚ := (-1 * (kcal_mol_homo + kcal_mol_lumo)) / 2
  let hardness : ℚ := kcal_mol_lumo - kcal_mol_homo
  if 2 * hardness = 0 then .error .zeroDivision
  else
    let softness : ℚ := 1 / (2 * hardness)
    let global_electrophilicity : ℚ := electronegativity ^ 2 / (2 * hardness)
    if global_electrophilicity = 0 then .error .zeroDivision
    else
      let global_nucleophilicity : ℚ := 1 / global_electrophilicity
      .ok (electronegativity, hardness, softness,
        global_electrophilicity, global_nucleophilicity)

/-- The row-labelling comprehension inside `get_charge_table` of
`write_electro_nbo.py` (lines 108-113): rows whose first token is "H"
are dropped; each remaining row becomes the pair of its first token
concatenated with its second token (the atom's serial-number column)
and the float value of its third token.  List accesses and the float
conversion fail as in Python. -/
def parse_rows : List (List String) → Except PyErr (List (String × ℚ))
  | [] => .ok []
  | row :: rest =>
    match row.head? with
    | none => .error .indexError
    | some s =>
      if s = hSym then parse_rows rest
      else
        match row[1]? with
        | none => .error .indexError
        | some t2 =>
          match row[2]? with
          | none => .error .indexError
          | some t3 =>
            match pyFloat t3 with
            | .error e => .error e
            | .ok c => (parse_rows rest).map (fun r => (s ++ t2, c) :: r)

/-- `get_charge_table` of `write_electro_nbo.py` (lines 94-114): slice
from the last `SECTION_HEADER` line, then from six lines past the first
`TABLE_HEADER` line of that slice, cut at the first line starting with
`TABLE_END`, split the remaining lines into tokens and label them with
`parse_rows`. -/
def get_charge_table (raw_text : List String) : Except PyErr (List (String × ℚ)) :=
  match (idxWhere (fun x => strHasSub x SECTION_HEADER) raw_text).getLast? with
  | none => .error .indexError
  | some k =>
    let txt := raw_text.drop k
    match (idxWhere (fun x => strHasSub x TABLE_HEADER) txt).head? with
    | none => .error .indexError
    | some j =>
      let txt := txt.drop (j + 6)
      match (idxWhere (fun x => strStarts x TABLE_END) txt).head? with
      | none => .error .indexError
      | some e =>
        parse_rows ((txt.take e).map pySplit)

/-- Loop body of `combine_tables` (lines 117-134), walking the three
tables positionally.  The Python loop runs `i` over the neutral table's
indices; `negative_charge_table[i]` and `positive_charge_table[i]` can
therefore raise `IndexError`, and the label comparison short-circuits:
the positive table is only accessed when the neutral and negative labels
agree.  On agreement the dict gains the row
`[neutral, positive, negative, neutral - positive, negative - neutral]`;
on disagreement the loop raises `Exception("Tables do not correspond.")`. -/
def combineAux : List (String × ℚ) → List (String × ℚ) → List (String × ℚ) →
    List (String × List ℚ) → Except PyErr (List (String × List ℚ))
  | [], _, _, acc => .ok acc
  | a :: ns, neg, pos, acc =>
    match neg with
    | [] => .error .indexError
    | b :: gs =>
      if a.1 = b.1 then
        match pos with
        | [] => .error .indexError
        | c :: ps =>
          if a.1 = c.1 then
            combineAux ns gs ps
              (dictInsert acc a.1 [a.2, c.2, b.2, a.2 - c.2, b.2 - a.2])
          else .error (.exception mismatchMsg)
      else .error (.exception mismatchMsg)

/-- `combine_tables` of `write_electro_nbo.py` (lines 117-134). -/
def combine_tables (neutral_charge_table negative_charge_table positive_charge_table :
    List (String × ℚ)) : Except PyErr (List (String × List ℚ)) :=
  combineAux neutral_charge_table negative_charge_table positive_charge_table []

/-- The local-index loop of `write_local_electro` (lines 153-157 of
`write_electro_nbo.py`): each combined row gains two trailing columns,
`row[2] * global_nucleophilicity` and `row[2] * global_electrophilicity`.
`row[2]` is the third stored column — the anion charge.  The rows
produced by `combine_tables` always have five entries, so the default of
`getD` is never used. -/
def add_local_electro (global_nucleophilicity global_electrophilicity : ℚ)
    (overall_table : List (String × List ℚ)) : List (String × List ℚ) :=
  overall_table.map (fun q =>
    (q.1, q.2 ++ [q.2.getD 2 0 * global_nucleophilicity,
                  q.2.getD 2 0 * global_electrophilicity]))

end Nbo

namespace Props

/-- Anchor substring of the Mulliken charge table in
`write_electro_properties.py` (line 92). -/
def mullikenMarker : String := "Mulliken atomic charges:"

/-- Terminator of the Mulliken charge table (line 95): the first line
starting with " Sum". -/
def sumMarker : String := " Sum"

/-- `get_homo_lumo` of `write_electro_properties.py` (lines 27-48),
textually identical to the `write_electro_nbo.py` version. -/
def get_homo_lumo (raw_text : List String) : Except PyErr (ℚ × ℚ) :=
  match (idxWhere (fun x => strHasSub x Nbo.popMarker) raw_text).getLast? with
  | none => .error .indexError
  | some k =>
    let txt := raw_text.drop k
    match (txt.filter (fun l => strHasSub l Nbo.occMarker)).getLast? with
    | none => .error .indexError
    | some occLine =>
      match (pySplit occLine).getLast? with
      | none => .error .indexError
      | some htok =>
        match pyFloat htok with
        | .error e => .error e
        | .ok homo =>
          match (txt.filter (fun l => strHasSub l Nbo.virtMarker)).head? with
          | none => .error .indexError
          | some vLine =>
            match (pySplit vLine)[4]? with
            | none => .error .indexError
            | some ltok =>
              match pyFloat ltok with
              | .error e => .error e
              | .ok lumo => .ok (homo, lumo)

/-- `get_properties` of `write_electro_properties.py` (lines 51-68),
textually identical to the `write_electro_nbo.py` version. -/
def get_properties (homo lumo : ℚ) : Except PyErr (ℚ × ℚ × ℚ × ℚ × ℚ) :=
  let kcal_mol_homo : ℚ := 27.212 * homo
  let kcal_mol_lumo : ℚ := 27.212 * lumo
  let electronegativity : ℚ := (-1 * (kcal_mol_homo + kcal_mol_lumo)) / 2
  let hardness : ℚ := kcal_mol_lumo - kcal_mol_homo
  if 2 * hardness = 0 then .error .zeroDivision
  else
    let softness : ℚ := 1 / (2 * hardness)
    let global_electrophilicity : ℚ := electronegativity ^ 2 / (2 * hardness)
    if global_electrophilicity = 0 then .error .zeroDivision
    else
      let global_nucleophilicity : ℚ := 1 / global_electrophilicity
      .ok (electronegativity, hardness, softness,
        global_electrophilicity, global_nucleophilicity)

/-- The comprehension `[line for line in table_text if line[0] != "H"]`
(line 97 of `write_electro_properties.py`): drop rows whose first token
is "H"; a row with no tokens raises `IndexError`. -/
def filterNonH : List (List String) → Except PyErr (List (List String))
  | [] => .ok []
  | r :: rest =>
    match r.head? with
    | none => .error .indexError
    | some s =>
      match filterNonH rest with
      | .error e => .error e
      | .ok t => .ok (if s = Nbo.hSym then t else r :: t)

/-- The labelling loop of `get_charge_table` (lines 98-105 of
`write_electro_properties.py`).  `d` models `element_dict`, the running
per-element occurrence counter (only ever read by key, so a lookup
function is a faithful model of the Python dict).  For each row the
charge token `row[1]` is converted with `float`, then the counter for
`row[0]` is bumped (the `try`/`except` sets an absent key to 1), and the
row's label becomes the element symbol suffixed with the counter
value. -/
def labelLoop : List (List String) → (String → Option Nat) →
    Except PyErr (List (String × ℚ))
  | [], _ => .ok []
  | row :: rest, d =>
    match row[1]? with
    | none => .error .indexError
    | some ctok =>
      match pyFloat ctok with
      | .error e => .error e
      | .ok c =>
        match row.head? with
        | none => .error .indexError
        | some sym =>
          let n := (d sym).getD 0 + 1
          match labelLoop rest (fun t => if t = sym then some n else d t) with
          | .error e => .error e
          | .ok r => .ok ((sym ++ toString n, c) :: r)

/-- The row-processing core of `get_charge_table` of
`write_electro_properties.py` (lines 96-106): strip the leading
atom-index column from every row (`line.split()[1:]`), drop hydrogen
rows, then label the remainder with the per-element occurrence
counter. -/
def parse_rows (rows : List (List String)) : Except PyErr (List (String × ℚ)) :=
  match filterNonH (rows.map (fun r => r.drop 1)) with
  | .error e => .error e
  | .ok t => labelLoop t (fun _ => none)

/-- `get_charge_table` of `write_electro_properties.py` (lines 87-106):
slice from two lines past the last line containing `mullikenMarker`,
cut at the first line starting with " Sum", split the remaining lines
into tokens and process them with `parse_rows`. -/
def get_charge_table (raw_text : List String) : Except PyErr (List (String × ℚ)) :=
  match (idxWhere (fun x => strHasSub x mullikenMarker) raw_text).getLast? with
  | none => .error .indexError
  | some k =>
    let txt := raw_text.drop (k + 2)
    match (idxWhere (fun x => strStarts x sumMarker) txt).head? with
    | none => .error .indexError
    | some e =>
      parse_rows ((txt.take e).map pySplit)

/-- Loop body of `combine_tables` of `write_electro_properties.py`
(lines 109-126), textually identical to the `write_electro_nbo.py`
version. -/
def combineAux : List (String × ℚ) → List (String × ℚ) → List (String × ℚ) →
    List (String × List ℚ) → Except PyErr (List (String × List ℚ))
  | [], _, _, acc => .ok acc
  | a :: ns, neg, pos, acc =>
    match neg with
    | [] => .error .indexError
    | b :: gs =>
      if a.1 = b.1 then
        match pos with
        | [] => .error .indexError
        | c :: ps =>
          if a.1 = c.1 then
            combineAux ns gs ps
              (dictInsert acc a.1 [a.2, c.2, b.2, a.2 - c.2, b.2 - a.2])
          else .error (.exception Nbo.mismatchMsg)
      else .error (.exception Nbo.mismatchMsg)

/-- `combine_tables` of `write_electro_properties.py` (lines 109-126). -/
def combine_tables (neutral_charge_table negative_charge_table positive_charge_table :
    List (String × ℚ)) : Except PyErr (List (String × List ℚ)) :=
  combineAux neutral_charge_table negative_charge_table positive_charge_table []

/-- The local-index loop of `write_local_electro` (lines 145-149 of
`write_electro_properties.py`), identical to the `write_electro_nbo.py`
version: appends `row[2] * global_nucleophilicity` and
`row[2] * global_electrophilicity` to each combined row. -/
def add_local_electro (global_nucleophilicity global_electrophilicity : ℚ)
    (overall_table : List (String × List ℚ)) : List (String × List ℚ) :=
  overall_table.map (fun q =>
    (q.1, q.2 ++ [q.2.getD 2 0 * global_nucleophilicity,
                  q.2.getD 2 0 * global_electrophilicity]))

end Props

/-- Default pair for total positional access to charge tables in
statements; the hypotheses of the theorems using it keep every access in
range. -/
def defaultAtom : String × ℚ := (emptyStr, 0)

lemma get_properties_variants (homo lumo : ℚ) :
    Props.get_properties homo lumo = Nbo.get_properties homo lumo := rfl

lemma get_homo_lumo_variants (raw : List String) :
    Props.get_homo_lumo raw = Nbo.get_homo_lumo raw := rfl

lemma combineAux_variants (n g p : List (String × ℚ)) (acc : List (String × List ℚ)) :
    Props.combineAux n g p acc = Nbo.combineAux n g p acc := by
  induction n generalizing g p acc with
  | nil => rfl
  | cons a ns ih =>
    cases g with
    | nil => rfl
    | cons b gs =>
      cases p with
      | nil =>
        by_cases h1 : a.1 = b.1
        · simp only [Props.combineAux, Nbo.combineAux, if_pos h1]
        · simp only [Props.combineAux, Nbo.combineAux, if_neg h1]
      | cons c ps =>
        by_cases h1 : a.1 = b.1
        · by_cases h2 : a.1 = c.1
          · simp only [Props.combineAux, Nbo.combineAux, if_pos h1, if_pos h2]
            exact ih gs ps _
          · simp only [Props.combineAux, Nbo.combineAux, if_pos h1, if_neg h2]
        · simp only [Props.combineAux, Nbo.combineAux, if_neg h1]

lemma combine_tables_variants (n g p : List (String × ℚ)) :
    Props.combine_tables n g p = Nbo.combine_tables n g p :=
  combineAux_variants n g p []

/-- C10: the two pipeline variants share the same core computation: the
`get_properties` functions of `write_electro_nbo.py` and
`write_electro_properties.py` agree on every `(homo, lumo)` input, and
the two `combine_tables` functions agree (value or error) on every
triple of charge tables. -/
theorem variants_equivalent :
    (∀ homo lumo : ℚ, Nbo.get_properties homo lumo = Props.get_properties homo lumo) ∧
    (∀ n g p : List (String × ℚ), Nbo.combine_tables n g p = Props.combine_tables n g p) :=
  ⟨fun homo lumo => (get_properties_variants homo lumo).symm,
   fun n g p => (combine_tables_variants n g p).symm⟩

/-- C3 (amended): for every `(homo, lumo)` with `27.212*lumo ≠
27.212*homo` and with electronegativity nonzero, `get_properties`
returns electronegativity `-(27.212*homo + 27.212*lumo)/2`, hardness
`27.212*(lumo-homo)`, softness `1/(2*hardness)`, electrophilicity
`electronegativity^2/(2*hardness)` and nucleophilicity
`1/electrophilicity`, exactly (the model computes over exact rationals).
The extra hypothesis is forced: when the electronegativity is zero the
electrophilicity is zero and the code raises `ZeroDivisionError` at
`1 / global_electrophilicity` instead of returning. -/
theorem global_properties_formulas (homo lumo : ℚ)
    (h1 : 27.212 * lumo ≠ 27.212 * homo)
    (h2 : -(27.212 * homo + 27.212 * lumo) / 2 ≠ 0) :
    Nbo.get_properties homo lumo =
      .ok (-(27.212 * homo + 27.212 * lumo) / 2,
           27.212 * (lumo - homo),
           1 / (2 * (27.212 * (lumo - homo))),
           (-(27.212 * homo + 27.212 * lumo) / 2) ^ 2 / (2 * (27.212 * (lumo - homo))),
           1 / ((-(27.212 * homo + 27.212 * lumo) / 2) ^ 2 / (2 * (27.212 * (lumo - homo))))) ∧
    Props.get_properties homo lumo =
      .ok (-(27.212 * homo + 27.212 * lumo) / 2,
           27.212 * (lumo - homo),
           1 / (2 * (27.212 * (lumo - homo))),
           (-(27.212 * homo + 27.212 * lumo) / 2) ^ 2 / (2 * (27.212 * (lumo - homo))),
           1 / ((-(27.212 * homo + 27.212 * lumo) / 2) ^ 2 / (2 * (27.212 * (lumo - homo))))) := by
  have hsub : (27.212 : ℚ) * lumo - 27.212 * homo ≠ 0 := sub_ne_zero_of_ne h1
  have hh : (2 : ℚ) * (27.212 * lumo - 27.212 * homo) ≠ 0 :=
    mul_ne_zero two_ne_zero hsub
  have hen : ((-1 : ℚ) * (27.212 * homo + 27.212 * lumo)) / 2 ≠ 0 := by
    intro hc
    apply h2
    rw [← hc]
    ring
  have helec : (((-1 : ℚ) * (27.212 * homo + 27.212 * lumo)) / 2) ^ 2 /
      (2 * (27.212 * lumo - 27.212 * homo)) ≠ 0 :=
    div_ne_zero (pow_ne_zero 2 hen) hh
  have main : Nbo.get_properties homo lumo =
      .ok (-(27.212 * homo + 27.212 * lumo) / 2,
           27.212 * (lumo - homo),
           1 / (2 * (27.212 * (lumo - homo))),
           (-(27.212 * homo + 27.212 * lumo) / 2) ^ 2 / (2 * (27.212 * (lumo - homo))),
           1 / ((-(27.212 * homo + 27.212 * lumo) / 2) ^ 2 / (2 * (27.212 * (lumo - homo))))) := by
    simp only [Nbo.get_properties, if_neg hh, if_neg helec, Except.ok.injEq, Prod.mk.injEq]
    refine ⟨by ring, by ring, by ring, by ring, by ring⟩
  exact ⟨main, (get_properties_variants homo lumo).trans main⟩

theorem global_properties_formulas_witness :
    Nbo.get_properties (-3/10 : ℚ) (1/10) =
      .ok (-(27.212 * (-3/10) + 27.212 * (1/10)) / 2,
           27.212 * ((1/10) - (-3/10)),
           1 / (2 * (27.212 * ((1/10) - (-3/10)))),
           (-(27.212 * (-3/10) + 27.212 * (1/10)) / 2) ^ 2 /
             (2 * (27.212 * ((1/10) - (-3/10)))),
           1 / ((-(27.212 * (-3/10) + 27.212 * (1/10)) / 2) ^ 2 /
             (2 * (27.212 * ((1/10) - (-3/10)))))) ∧
    Props.get_properties (-3/10 : ℚ) (1/10) =
      .ok (-(27.212 * (-3/10) + 27.212 * (1/10)) / 2,
           27.212 * ((1/10) - (-3/10)),
           1 / (2 * (27.212 * ((1/10) - (-3/10)))),
           (-(27.212 * (-3/10) + 27.212 * (1/10)) / 2) ^ 2 /
             (2 * (27.212 * ((1/10) - (-3/10)))),
           1 / ((-(27.212 * (-3/10) + 27.212 * (1/10)) / 2) ^ 2 /
             (2 * (27.212 * ((1/10) - (-3/10)))))) :=
  global_properties_formulas (-3/10) (1/10) (by norm_num) (by norm_num)

/-- C5: for every `(homo, lumo)` making the hardness
`27.212*(lumo-homo)` zero, `get_properties` fails with the
zero-denominator error (Python's `ZeroDivisionError`, the failure kind
the specification names `DegenerateOrbitalsError`) and returns no tuple,
so no `inf` or `NaN` is ever produced; and when the electrophilicity
expression is zero, computing the nucleophilicity fails with the same
error kind. -/
theorem zero_denominator_error (homo lumo : ℚ)
    (h : 27.212 * (lumo - homo) = 0 ∨
      (-(27.212 * homo + 27.212 * lumo) / 2) ^ 2 / (2 * (27.212 * (lumo - homo))) = 0) :
    Nbo.get_properties homo lumo = .error PyErr.zeroDivision ∧
    Props.get_properties homo lumo = .error PyErr.zeroDivision := by
  have main : Nbo.get_properties homo lumo = .error PyErr.zeroDivision := by
    by_cases hz : (2 : ℚ) * (27.212 * lumo - 27.212 * homo) = 0
    · simp only [Nbo.get_properties, if_pos hz]
    · have hhard : (27.212 : ℚ) * (lumo - homo) ≠ 0 := by
        intro hc
        apply hz
        rw [show (2 : ℚ) * (27.212 * lumo - 27.212 * homo) = 2 * (27.212 * (lumo - homo)) by ring,
          hc, mul_zero]
      rcases h with h | h
      · exact absurd h hhard
      · have helec : (((-1 : ℚ) * (27.212 * homo + 27.212 * lumo)) / 2) ^ 2 /
            (2 * (27.212 * lumo - 27.212 * homo)) = 0 := by
          rw [show (((-1 : ℚ) * (27.212 * homo + 27.212 * lumo)) / 2) ^ 2 /
              (2 * (27.212 * lumo - 27.212 * homo)) =
              (-(27.212 * homo + 27.212 * lumo) / 2) ^ 2 /
              (2 * (27.212 * (lumo - homo))) by ring]
          exact h
        simp only [Nbo.get_properties, if_neg hz, if_pos helec]
  exact ⟨main, (get_properties_variants homo lumo).trans main⟩

theorem zero_denominator_error_witness :
    Nbo.get_properties 1 1 = .error PyErr.zeroDivision ∧
    Props.get_properties 1 1 = .error PyErr.zeroDivision :=
  zero_denominator_error 1 1 (Or.inl (by norm_num))

/-- C7: for every log text containing the required markers, the HOMO is
the parsed value of the last whitespace token of the last line
containing the occupied-eigenvalues marker at or after the last
population-analysis marker line, and the LUMO is the parsed value of the
whitespace token at zero-based index 4 of the first virtual-eigenvalues
line in the same region. -/
theorem homo_lumo_token_selection (raw : List String) (k : Nat)
    (occLine vLine htok ltok : String) (h l : ℚ)
    (hk : (idxWhere (fun x => strHasSub x Nbo.popMarker) raw).getLast? = some k)
    (hocc : ((raw.drop k).filter (fun s => strHasSub s Nbo.occMarker)).getLast? = some occLine)
    (hht : (pySplit occLine).getLast? = some htok)
    (hhf : pyFloat htok = .ok h)
    (hv : ((raw.drop k).filter (fun s => strHasSub s Nbo.virtMarker)).head? = some vLine)
    (hlt : (pySplit vLine)[4]? = some ltok)
    (hlf : pyFloat ltok = .ok l) :
    Nbo.get_homo_lumo raw = .ok (h, l) ∧ Props.get_homo_lumo raw = .ok (h, l) := by
  have main : Nbo.get_homo_lumo raw = .ok (h, l) := by
    simp only [Nbo.get_homo_lumo, hk, hocc, hht, hhf, hv, hlt, hlf]
  exact ⟨main, (get_homo_lumo_variants raw).trans main⟩

theorem homo_lumo_token_selection_witness :
    Nbo.get_homo_lumo
        ["junk",
         "Population analysis using the SCF density.",
         " Alpha  occ. eigenvalues --   -0.9  -0.5",
         " Alpha virt. eigenvalues --    0.25   0.75  0.8  0.9  1.0"] =
      .ok (-(1/2), 1/4) ∧
    Props.get_homo_lumo
        ["junk",
         "Population analysis using the SCF density.",
         " Alpha  occ. eigenvalues --   -0.9  -0.5",
         " Alpha virt. eigenvalues --    0.25   0.75  0.8  0.9  1.0"] =
      .ok (-(1/2), 1/4) := by
  refine homo_lumo_token_selection _ 1
    (" Alpha  occ. eigenvalues --   -0.9  -0.5")
    (" Alpha virt. eigenvalues --    0.25   0.75  0.8  0.9  1.0")
    ("-0.5") ("0.25") (-(1/2)) (1/4)
    (by decide) (by decide) (by decide) ?_ (by decide) (by decide) ?_
  · simp [pyFloat, digitsToNat]
    norm_num
  · simp [pyFloat, digitsToNat]
    norm_num

lemma idxFrom_eq_nil (p : String → Bool) (raw : List String)
    (h : ∀ x ∈ raw, p x = false) : ∀ i, idxFrom p i raw = [] := by
  induction raw with
  | nil => intro i; rfl
  | cons a rest ih =>
    intro i
    have ha : p a = false := h a (by simp)
    simp only [idxFrom, ha, Bool.false_eq_true, if_false]
    exact ih (fun x hx => h x (by simp [hx])) (i + 1)

lemma idxWhere_eq_nil (p : String → Bool) (raw : List String)
    (h : ∀ x ∈ raw, p x = false) : idxWhere p raw = [] :=
  idxFrom_eq_nil p raw h 0

lemma filter_false_eq_nil (p : String → Bool) (l : List String)
    (h : ∀ x ∈ l, p x = false) : l.filter p = [] := by
  induction l with
  | nil => rfl
  | cons a rest ih =>
    rw [List.filter_cons]
    have ha : p a = false := h a (by simp)
    simp only [ha, Bool.false_eq_true, if_false]
    exact ih (fun x hx => h x (by simp [hx]))

/-- C8 (amended): every one of the eight anchor-marker lookups fails
hard, when its marker is absent, via the empty-sequence index access — a
bare `IndexError` whose fixed Python message ("list index out of range")
names neither the missing marker nor the file path — provided extraction
reaches that lookup (the hypotheses of each conjunct are exactly the
earlier lookups and conversions of the same scan having succeeded).  In
order: population-analysis marker absent; no occupied-eigenvalues line
after the population anchor; no virtual-eigenvalues line after the
population anchor (the HOMO being read first); `SECTION_HEADER` absent;
no `TABLE_HEADER` line after the section anchor; no `TABLE_END` line
after the table header; Mulliken marker absent; no " Sum" line after the
Mulliken anchor. -/
theorem missing_marker_indexerror :
    (∀ raw : List String, (∀ x ∈ raw, strHasSub x Nbo.popMarker = false) →
      Nbo.get_homo_lumo raw = .error PyErr.indexError ∧
      Props.get_homo_lumo raw = .error PyErr.indexError) ∧
    (∀ (raw : List String) (k : Nat),
      (idxWhere (fun x => strHasSub x Nbo.popMarker) raw).getLast? = some k →
      (∀ x ∈ raw.drop k, strHasSub x Nbo.occMarker = false) →
      Nbo.get_homo_lumo raw = .error PyErr.indexError ∧
      Props.get_homo_lumo raw = .error PyErr.indexError) ∧
    (∀ (raw : List String) (k : Nat) (occLine htok : String) (h : ℚ),
      (idxWhere (fun x => strHasSub x Nbo.popMarker) raw).getLast? = some k →
      ((raw.drop k).filter (fun l => strHasSub l Nbo.occMarker)).getLast? = some occLine →
      (pySplit occLine).getLast? = some htok →
      pyFloat htok = .ok h →
      (∀ x ∈ raw.drop k, strHasSub x Nbo.virtMarker = false) →
      Nbo.get_homo_lumo raw = .error PyErr.indexError ∧
      Props.get_homo_lumo raw = .error PyErr.indexError) ∧
    (∀ raw : List String, (∀ x ∈ raw, strHasSub x Nbo.SECTION_HEADER = false) →
      Nbo.get_charge_table raw = .error PyErr.indexError) ∧
    (∀ (raw : List String) (k : Nat),
      (idxWhere (fun x => strHasSub x Nbo.SECTION_HEADER) raw).getLast? = some k →
      (∀ x ∈ raw.drop k, strHasSub x Nbo.TABLE_HEADER = false) →
      Nbo.get_charge_table raw = .error PyErr.indexError) ∧
    (∀ (raw : List String) (k j : Nat),
      (idxWhere (fun x => strHasSub x Nbo.SECTION_HEADER) raw).getLast? = some k →
      (idxWhere (fun x => strHasSub x Nbo.TABLE_HEADER) (raw.drop k)).head? = some j →
      (∀ x ∈ (raw.drop k).drop (j + 6), strStarts x Nbo.TABLE_END = false) →
      Nbo.get_charge_table raw = .error PyErr.indexError) ∧
    (∀ raw : List String, (∀ x ∈ raw, strHasSub x Props.mullikenMarker = false) →
      Props.get_charge_table raw = .error PyErr.indexError) ∧
    (∀ (raw : List String) (k : Nat),
      (idxWhere (fun x => strHasSub x Props.mullikenMarker) raw).getLast? = some k →
      (∀ x ∈ raw.drop (k + 2), strStarts x Props.sumMarker = false) →
      Props.get_charge_table raw = .error PyErr.indexError) := by
  refine ⟨fun raw h => ?_, fun raw k hk h => ?_, fun raw k occLine htok hq hk hocc hht hhf h => ?_,
    fun raw h => ?_, fun raw k hk h => ?_, fun raw k j hk hj h => ?_,
    fun raw h => ?_, fun raw k hk h => ?_⟩
  · have hnil : idxWhere (fun x => strHasSub x Nbo.popMarker) raw = [] :=
      idxWhere_eq_nil _ raw h
    have main : Nbo.get_homo_lumo raw = .error PyErr.indexError := by
      simp only [Nbo.get_homo_lumo, hnil, List.getLast?_nil]
    exact ⟨main, (get_homo_lumo_variants raw).trans main⟩
  · have hnil : (raw.drop k).filter (fun l => strHasSub l Nbo.occMarker) = [] :=
      filter_false_eq_nil _ _ h
    have main : Nbo.get_homo_lumo raw = .error PyErr.indexError := by
      simp only [Nbo.get_homo_lumo, hk, hnil, List.getLast?_nil]
    exact ⟨main, (get_homo_lumo_variants raw).trans main⟩
  · have hnil : (raw.drop k).filter (fun l => strHasSub l Nbo.virtMarker) = [] :=
      filter_false_eq_nil _ _ h
    have main : Nbo.get_homo_lumo raw = .error PyErr.indexError := by
      simp only [Nbo.get_homo_lumo, hk, hocc, hht, hhf, hnil, List.head?_nil]
    exact ⟨main, (get_homo_lumo_variants raw).trans main⟩
  · have hnil : idxWhere (fun x => strHasSub x Nbo.SECTION_HEADER) raw = [] :=
      idxWhere_eq_nil _ raw h
    simp only [Nbo.get_charge_table, hnil, List.getLast?_nil]
  · have hnil : idxWhere (fun x => strHasSub x Nbo.TABLE_HEADER) (raw.drop k) = [] :=
      idxWhere_eq_nil _ _ h
    simp only [Nbo.get_charge_table, hk, hnil, List.head?_nil]
  · have hnil : idxWhere (fun x => strStarts x Nbo.TABLE_END)
        ((raw.drop k).drop (j + 6)) = [] :=
      idxWhere_eq_nil _ _ h
    simp only [Nbo.get_charge_table, hk, hj, hnil, List.head?_nil]
  · have hnil : idxWhere (fun x => strHasSub x Props.mullikenMarker) raw = [] :=
      idxWhere_eq_nil _ raw h
    simp only [Props.get_charge_table, hnil, List.getLast?_nil]
  · have hnil : idxWhere (fun x => strStarts x Props.sumMarker) (raw.drop (k + 2)) = [] :=
      idxWhere_eq_nil _ _ h
    simp only [Props.get_charge_table, hk, hnil, List.head?_nil]

theorem missing_marker_indexerror_witness :
    Nbo.get_homo_lumo [emptyStr] = .error PyErr.indexError ∧
    Props.get_homo_lumo [emptyStr] = .error PyErr.indexError :=
  missing_marker_indexerror.1 [emptyStr] (by decide)

/-- C8 counterexample: on a log missing the population-analysis marker
the failure value is the payload-free `PyErr.indexError` — the
constructor carries no field at all, so the error cannot name the
missing marker or the file path, contrary to the claim's
`MalformedLogError` that "names which marker was not found and the file
path". -/
theorem missing_marker_unnamed_cex :
    Nbo.get_homo_lumo ["no markers in this log"] = .error PyErr.indexError ∧
    Props.get_charge_table ["no markers in this log"] = .error PyErr.indexError := by
  exact ⟨by decide, by decide⟩

lemma combineAux_mismatch (n : List (String × ℚ)) :
    ∀ (g p : List (String × ℚ)) (acc : List (String × List ℚ)) (i : Nat),
    i < n.length → i < g.length → i < p.length →
    ((n.getD i defaultAtom).1 ≠ (g.getD i defaultAtom).1 ∨
      (n.getD i defaultAtom).1 ≠ (p.getD i defaultAtom).1) →
    Nbo.combineAux n g p acc = .error (.exception Nbo.mismatchMsg) := by
  induction n with
  | nil =>
    intro g p acc i hin
    exact absurd hin (by simp)
  | cons a ns ih =>
    intro g p acc i hin hig hip hmm
    cases g with
    | nil => exact absurd hig (by simp)
    | cons b gs =>
      cases p with
      | nil => exact absurd hip (by simp)
      | cons c ps =>
        cases i with
        | zero =>
          simp only [List.getD_cons_zero] at hmm
          by_cases h1 : a.1 = b.1
          · have h2 : a.1 ≠ c.1 := by
              rcases hmm with hmm | hmm
              · exact absurd h1 hmm
              · exact hmm
            simp only [Nbo.combineAux, if_pos h1, if_neg h2]
          · simp only [Nbo.combineAux, if_neg h1]
        | succ i =>
          simp only [List.getD_cons_succ] at hmm
          by_cases h1 : a.1 = b.1
          · by_cases h2 : a.1 = c.1
            · simp only [Nbo.combineAux, if_pos h1, if_pos h2]
              exact ih gs ps _ i (by simpa using hin) (by simpa using hig)
                (by simpa using hip) hmm
            · simp only [Nbo.combineAux, if_pos h1, if_neg h2]
          · simp only [Nbo.combineAux, if_neg h1]

/-- C2 (amended): a label mismatch at any position that is in range for
all three tables aborts the whole combination with the generic
`Exception("Tables do not correspond.")` — a message that identifies
neither the position nor the differing labels — and yields no output
entries at all.  (A length mismatch alone is not rejected: see the
counterexample `length_mismatch_accepted_cex`, where the cation and
anion tables are longer than the neutral table and the extra rows are
silently ignored; a cation or anion table shorter than the neutral one
aborts with `IndexError`.) -/
theorem mismatch_aborts_combination (n g p : List (String × ℚ)) (i : Nat)
    (hin : i < n.length) (hig : i < g.length) (hip : i < p.length)
    (hmm : (n.getD i defaultAtom).1 ≠ (g.getD i defaultAtom).1 ∨
      (n.getD i defaultAtom).1 ≠ (p.getD i defaultAtom).1) :
    Nbo.combine_tables n g p = .error (.exception Nbo.mismatchMsg) ∧
    Props.combine_tables n g p = .error (.exception Nbo.mismatchMsg) := by
  have main : Nbo.combine_tables n g p = .error (.exception Nbo.mismatchMsg) :=
    combineAux_mismatch n g p [] i hin hig hip hmm
  exact ⟨main, (combine_tables_variants n g p).trans main⟩

theorem mismatch_aborts_combination_witness :
    Nbo.combine_tables [("C1", 1)] [("N1", 1)] [("C1", 1)] =
      .error (.exception Nbo.mismatchMsg) ∧
    Props.combine_tables [("C1", 1)] [("N1", 1)] [("C1", 1)] =
      .error (.exception Nbo.mismatchMsg) :=
  mismatch_aborts_combination [("C1", 1)] [("N1", 1)] [("C1", 1)] 0
    (by decide) (by decide) (by decide) (Or.inl (by decide))

/-- C2 counterexample: charge tables that differ in length need not
abort.  Here the anion and cation tables have two rows while the neutral
table has one; `combine_tables` succeeds and returns one entry, so a
mismatched-length input yields a (partial) result instead of the hard
abort with zero output entries that the claim requires. -/
theorem length_mismatch_accepted_cex :
    Nbo.combine_tables [("C1", 0)] [("C1", 1), ("N1", 2)] [("C1", 3), ("N1", 4)] =
      .ok [("C1", [0, 3, 1, -3, 1])] ∧
    ([("C1", (0 : ℚ))].length ≠ [("C1", (1 : ℚ)), ("N1", 2)].length) := by
  constructor
  · simp [Nbo.combine_tables, Nbo.combineAux, dictInsert]
  · decide

/-- The rows `combine_tables` produces on aligned tables, by position:
`[neutral, positive, negative, neutral - positive, negative - neutral]`
keyed by the neutral label. -/
def combineRows : List (String × ℚ) → List (String × ℚ) → List (String × ℚ) →
    List (String × List ℚ)
  | a :: ns, b :: gs, c :: ps =>
    (a.1, [a.2, c.2, b.2, a.2 - c.2, b.2 - a.2]) :: combineRows ns gs ps
  | _, _, _ => []

lemma dictInsert_of_not_mem (d : List (String × α)) (k : String) (v : α)
    (h : k ∉ d.map Prod.fst) : dictInsert d k v = d ++ [(k, v)] := by
  unfold dictInsert
  rw [if_neg h]

lemma combineAux_aligned (n : List (String × ℚ)) :
    ∀ (g p : List (String × ℚ)) (acc : List (String × List ℚ)),
    g.length = n.length → p.length = n.length →
    (∀ i, i < n.length → (n.getD i defaultAtom).1 = (g.getD i defaultAtom).1 ∧
      (n.getD i defaultAtom).1 = (p.getD i defaultAtom).1) →
    (n.map Prod.fst).Nodup →
    (∀ s ∈ acc.map Prod.fst, s ∉ n.map Prod.fst) →
    Nbo.combineAux n g p acc = .ok (acc ++ combineRows n g p) := by
  induction n with
  | nil =>
    intro g p acc _ _ _ _ _
    simp [Nbo.combineAux, combineRows]
  | cons a ns ih =>
    intro g p acc hg hp hlab hnd hdisj
    cases g with
    | nil => exact absurd hg (by simp)
    | cons b gs =>
      cases p with
      | nil => exact absurd hp (by simp)
      | cons c ps =>
        have hlab0 := hlab 0 (by simp)
        simp only [List.getD_cons_zero] at hlab0
        have hmemn : a.1 ∉ ns.map Prod.fst := by
          have := hnd
          simp only [List.map_cons, List.nodup_cons] at this
          exact this.1
        have hins : dictInsert acc a.1 [a.2, c.2, b.2, a.2 - c.2, b.2 - a.2] =
            acc ++ [(a.1, [a.2, c.2, b.2, a.2 - c.2, b.2 - a.2])] := by
          apply dictInsert_of_not_mem
          intro hmem
          exact hdisj a.1 hmem (by simp)
        have hrec := ih gs ps
          (acc ++ [(a.1, [a.2, c.2, b.2, a.2 - c.2, b.2 - a.2])])
          (by simpa using hg) (by simpa using hp)
          (fun i hi => by
            have := hlab (i + 1) (by simpa using hi)
            simpa using this)
          (by
            have := hnd
            simp only [List.map_cons, List.nodup_cons] at this
            exact this.2)
          (by
            intro s hs
            simp only [List.map_append, List.map_cons, List.map_nil,
              List.mem_append, List.mem_cons, List.not_mem_nil] at hs
            rcases hs with hs | hs
            · intro hmem
              exact hdisj s hs (by simp [hmem])
            · rcases hs with hs | hs
              · subst hs
                exact hmemn
              · exact absurd hs (by simp))
        simp only [Nbo.combineAux, if_pos hlab0.1, if_pos hlab0.2, hins, hrec,
          combineRows, List.append_assoc, List.singleton_append]

lemma combineRows_length (n : List (String × ℚ)) :
    ∀ g p : List (String × ℚ), g.length = n.length → p.length = n.length →
    (combineRows n g p).length = n.length := by
  induction n with
  | nil => intro g p _ _; simp [combineRows]
  | cons a ns ih =>
    intro g p hg hp
    cases g with
    | nil => exact absurd hg (by simp)
    | cons b gs =>
      cases p with
      | nil => exact absurd hp (by simp)
      | cons c ps =>
        simp only [combineRows, List.length_cons]
        rw [ih gs ps (by simpa using hg) (by simpa using hp)]

lemma combineRows_getElem? (n : List (String × ℚ)) :
    ∀ (g p : List (String × ℚ)) (i : Nat), g.length = n.length → p.length = n.length →
    i < n.length →
    (combineRows n g p)[i]? = some ((n.getD i defaultAtom).1,
      [(n.getD i defaultAtom).2, (p.getD i defaultAtom).2, (g.getD i defaultAtom).2,
       (n.getD i defaultAtom).2 - (p.getD i defaultAtom).2,
       (g.getD i defaultAtom).2 - (n.getD i defaultAtom).2]) := by
  induction n with
  | nil => intro g p i _ _ hi; exact absurd hi (by simp)
  | cons a ns ih =>
    intro g p i hg hp hi
    cases g with
    | nil => exact absurd hg (by simp)
    | cons b gs =>
      cases p with
      | nil => exact absurd hp (by simp)
      | cons c ps =>
        cases i with
        | zero => simp [combineRows]
        | succ i =>
          simp only [combineRows, List.getElem?_cons_succ, List.getD_cons_succ]
          exact ih gs ps i (by simpa using hg) (by simpa using hp) (by simpa using hi)

/-- C4 (amended): for every three charge tables of equal length `N` with
identical labels at each index and with the neutral table's labels
pairwise distinct, `combine_tables` returns exactly `N` entries, and the
entry at index `i` is keyed by the label at `i` and holds
`[neutral, cation, anion, f_minus, f_plus]` with
`f_minus = neutral_charge - cation_charge` and
`f_plus = anion_charge - neutral_charge`.  (`g` is the table of the
anion ("-1") log and `p` that of the cation ("+1") log, matching the
call sites in `write_local_electro`.)  The distinctness hypothesis is
forced: repeated labels collapse into one Python dict key, see
`duplicate_labels_collapse_cex`. -/
theorem combine_aligned_tables (n g p : List (String × ℚ))
    (hg : g.length = n.length) (hp : p.length = n.length)
    (hlab : ∀ i, i < n.length → (n.getD i defaultAtom).1 = (g.getD i defaultAtom).1 ∧
      (n.getD i defaultAtom).1 = (p.getD i defaultAtom).1)
    (hnd : (n.map Prod.fst).Nodup) :
    ∃ out, Nbo.combine_tables n g p = .ok out ∧
      Props.combine_tables n g p = .ok out ∧
      out.length = n.length ∧
      ∀ i, i < n.length → out[i]? = some ((n.getD i defaultAtom).1,
        [(n.getD i defaultAtom).2, (p.getD i defaultAtom).2, (g.getD i defaultAtom).2,
         (n.getD i defaultAtom).2 - (p.getD i defaultAtom).2,
         (g.getD i defaultAtom).2 - (n.getD i defaultAtom).2]) := by
  refine ⟨combineRows n g p, ?_, ?_, combineRows_length n g p hg hp,
    fun i hi => combineRows_getElem? n g p i hg hp hi⟩
  · have := combineAux_aligned n g p [] hg hp hlab hnd (by simp)
    simpa [Nbo.combine_tables] using this
  · rw [combine_tables_variants]
    have := combineAux_aligned n g p [] hg hp hlab hnd (by simp)
    simpa [Nbo.combine_tables] using this

theorem combine_aligned_tables_witness :
    ∃ out, Nbo.combine_tables [("C1", 1), ("O2", 2)] [("C1", 3), ("O2", 4)]
        [("C1", 5), ("O2", 6)] = .ok out ∧
      Props.combine_tables [("C1", 1), ("O2", 2)] [("C1", 3), ("O2", 4)]
        [("C1", 5), ("O2", 6)] = .ok out ∧
      out.length = [(("C1" : String), (1 : ℚ)), ("O2", 2)].length ∧
      ∀ i, i < [(("C1" : String), (1 : ℚ)), ("O2", 2)].length →
        out[i]? = some (([(("C1" : String), (1 : ℚ)), ("O2", 2)].getD i defaultAtom).1,
          [([(("C1" : String), (1 : ℚ)), ("O2", 2)].getD i defaultAtom).2,
           ([(("C1" : String), (5 : ℚ)), ("O2", 6)].getD i defaultAtom).2,
           ([(("C1" : String), (3 : ℚ)), ("O2", 4)].getD i defaultAtom).2,
           ([(("C1" : String), (1 : ℚ)), ("O2", 2)].getD i defaultAtom).2 -
             ([(("C1" : String), (5 : ℚ)), ("O2", 6)].getD i defaultAtom).2,
           ([(("C1" : String), (3 : ℚ)), ("O2", 4)].getD i defaultAtom).2 -
             ([(("C1" : String), (1 : ℚ)), ("O2", 2)].getD i defaultAtom).2]) :=
  combine_aligned_tables [("C1", 1), ("O2", 2)] [("C1", 3), ("O2", 4)]
    [("C1", 5), ("O2", 6)] (by decide) (by decide) (by decide) (by decide)

/-- C4 counterexample: three tables of equal length 2 with identical
labels at each index, but with the same label at both positions.  The
Python dict keyed by label collapses the two rows into one, so
`combine_tables` returns 1 entry instead of the claimed `N = 2`, with
the first atom's charges overwritten by the second's. -/
theorem duplicate_labels_collapse_cex :
    Nbo.combine_tables [("C1", 0), ("C1", 1)] [("C1", 2), ("C1", 3)]
        [("C1", 4), ("C1", 5)] = .ok [("C1", [1, 5, 3, -4, 2])] ∧
    ([(("C1" : String), [(1 : ℚ), 5, 3, -4, 2])].length ≠
      [(("C1" : String), (0 : ℚ)), ("C1", 1)].length) := by
  constructor
  · simp [Nbo.combine_tables, Nbo.combineAux, dictInsert]
    norm_num
  · decide

/-- Shape of every value stored by `combine_tables`:
`[neutral, cation, anion, neutral - cation, anion - neutral]`. -/
def rowShape (v : List ℚ) : Prop :=
  ∃ a b c : ℚ, v = [a, b, c, a - b, c - a]

lemma dictInsert_forall {P : String × α → Prop} (d : List (String × α)) (k : String)
    (v : α) (hd : ∀ q ∈ d, P q) (hv : P (k, v)) : ∀ q ∈ dictInsert d k v, P q := by
  unfold dictInsert
  split
  · intro q hq
    rw [List.mem_map] at hq
    obtain ⟨q', hq', rfl⟩ := hq
    by_cases he : q'.1 = k
    · rw [if_pos he]
      exact hv
    · rw [if_neg he]
      exact hd q' hq'
  · intro q hq
    rw [List.mem_append] at hq
    rcases hq with hq | hq
    · exact hd q hq
    · rw [List.mem_singleton] at hq
      subst hq
      exact hv

lemma combineAux_rows_shape (n : List (String × ℚ)) :
    ∀ (g p : List (String × ℚ)) (acc out : List (String × List ℚ)),
    (∀ q ∈ acc, rowShape q.2) → Nbo.combineAux n g p acc = .ok out →
    ∀ q ∈ out, rowShape q.2 := by
  induction n with
  | nil =>
    intro g p acc out hacc h
    simp only [Nbo.combineAux, Except.ok.injEq] at h
    subst h
    exact hacc
  | cons a ns ih =>
    intro g p acc out hacc h
    cases g with
    | nil => simp [Nbo.combineAux] at h
    | cons b gs =>
      by_cases h1 : a.1 = b.1
      · cases p with
        | nil => simp [Nbo.combineAux, if_pos h1] at h
        | cons c ps =>
          by_cases h2 : a.1 = c.1
          · simp only [Nbo.combineAux, if_pos h1, if_pos h2] at h
            exact ih gs ps _ out
              (dictInsert_forall _ _ _ hacc ⟨a.2, c.2, b.2, rfl⟩) h
          · simp [Nbo.combineAux, if_pos h1, if_neg h2] at h
      · simp [Nbo.combineAux, if_neg h1] at h

/-- C1 (amended): after the local-index loop, every output row has the
form `[neutral, cation, anion, f_minus, f_plus, anion *
global_nucleophilicity, anion * global_electrophilicity]`: both local
indices are obtained by scaling the raw anion charge — column index 2 of
the combined row, `overall_table[key][2]` in the source — not `f_minus`
(column 3) and not `f_plus` (column 4). -/
theorem local_indices_from_anion_charge (n g p : List (String × ℚ))
    (out : List (String × List ℚ)) (h : Nbo.combine_tables n g p = .ok out)
    (gNuc gElec : ℚ) :
    ∀ q ∈ Nbo.add_local_electro gNuc gElec out,
      ∃ neutral cation anion : ℚ,
        q.2 = [neutral, cation, anion, neutral - cation, anion - neutral,
               anion * gNuc, anion * gElec] := by
  intro q hq
  unfold Nbo.add_local_electro at hq
  rw [List.mem_map] at hq
  obtain ⟨q', hq', rfl⟩ := hq
  obtain ⟨a, b, c, hsh⟩ := combineAux_rows_shape n g p [] out (by simp) h q' hq'
  refine ⟨a, b, c, ?_⟩
  simp [hsh]

theorem local_indices_from_anion_charge_witness :
    ∃ neutral cation anion : ℚ,
      ((("C1" : String), [(1 : ℚ), 2, 5, -1, 4, 5, 5]) : String × List ℚ).2 =
        [neutral, cation, anion, neutral - cation, anion - neutral,
         anion * 1, anion * 1] :=
  local_indices_from_anion_charge [("C1", 1)] [("C1", 5)] [("C1", 2)]
    [("C1", [1, 2, 5, -1, 4])]
    (by simp [Nbo.combine_tables, Nbo.combineAux, dictInsert]
        exact ⟨by norm_num, by norm_num⟩) 1 1
    ("C1", [1, 2, 5, -1, 4, 5, 5])
    (by simp [Nbo.add_local_electro])

/-- C1 counterexample: neutral charge 1, cation charge 2, anion charge 5
for the single atom, and both global indices equal to 1.  Then
`f_minus = 1 - 2 = -1`, yet the written local nucleophilicity and local
electrophilicity are both `5` — the anion charge times the global index
— and `5 ≠ f_minus * 1 = -1`, refuting
`local_nucleophilicity = f_minus * global_nucleophilicity`. -/
theorem local_indices_not_f_minus_cex :
    Except.map (Nbo.add_local_electro 1 1)
        (Nbo.combine_tables [("C1", 1)] [("C1", 5)] [("C1", 2)]) =
      .ok [("C1", [1, 2, 5, -1, 4, 5, 5])] ∧
    ((5 : ℚ) ≠ (-1) * 1) := by
  constructor
  · simp [Nbo.combine_tables, Nbo.combineAux, dictInsert, Nbo.add_local_electro,
      Except.map]
    exact ⟨by norm_num, by norm_num⟩
  · norm_num

lemma nbo_parse_rows_mem (rows : List (List String)) :
    ∀ out, Nbo.parse_rows rows = .ok out →
    ∀ q ∈ out, ∃ r ∈ rows, r.headD emptyStr ≠ Nbo.hSym ∧
      q.1 = r.headD emptyStr ++ r.getD 1 emptyStr := by
  induction rows with
  | nil =>
    intro out h q hq
    simp only [Nbo.parse_rows, Except.ok.injEq] at h
    subst h
    exact absurd hq (by simp)
  | cons row rest ih =>
    intro out h q hq
    cases row with
    | nil => simp [Nbo.parse_rows] at h
    | cons x xs =>
      by_cases hs : x = Nbo.hSym
      · simp only [Nbo.parse_rows, List.head?_cons, if_pos hs] at h
        obtain ⟨r, hr, hrest⟩ := ih out h q hq
        exact ⟨r, by simp [hr], hrest⟩
      · rcases ht2 : (x :: xs)[1]? with _ | ⟨t2⟩
        · simp [Nbo.parse_rows, ht2, if_neg hs] at h
        · rcases ht3 : (x :: xs)[2]? with _ | ⟨t3⟩
          · simp [Nbo.parse_rows, ht2, ht3, if_neg hs] at h
          · rcases hf : pyFloat t3 with e | c
            · simp [Nbo.parse_rows, ht2, ht3, hf, if_neg hs] at h
            · rcases hrec : Nbo.parse_rows rest with e | out'
              · simp [Nbo.parse_rows, ht2, ht3, hf, hrec, if_neg hs,
                  Except.map] at h
              · simp only [Nbo.parse_rows, List.head?_cons, if_neg hs, ht2, ht3,
                  hf, hrec, Except.map, Except.ok.injEq] at h
                subst h
                simp only [List.mem_cons] at hq
                rcases hq with rfl | hq
                · refine ⟨x :: xs, by simp, by simpa using hs, ?_⟩
                  rw [List.getD_eq_getElem?_getD, ht2]
                  rfl
                · obtain ⟨r, hr, hrest⟩ := ih out' hrec q hq
                  exact ⟨r, by simp [hr], hrest⟩

lemma filterNonH_mem (rows : List (List String)) :
    ∀ out, Props.filterNonH rows = .ok out →
    ∀ r ∈ out, r.headD emptyStr ≠ Nbo.hSym := by
  induction rows with
  | nil =>
    intro out h r hr
    simp only [Props.filterNonH, Except.ok.injEq] at h
    subst h
    exact absurd hr (by simp)
  | cons row rest ih =>
    intro out h r hr
    cases row with
    | nil => simp [Props.filterNonH] at h
    | cons x xs =>
      rcases hrec : Props.filterNonH rest with e | t
      · simp [Props.filterNonH, hrec] at h
      · simp only [Props.filterNonH, List.head?_cons, hrec, Except.ok.injEq] at h
        subst h
        by_cases hs : x = Nbo.hSym
        · rw [if_pos hs] at hr
          exact ih t hrec r hr
        · rw [if_neg hs] at hr
          simp only [List.mem_cons] at hr
          rcases hr with rfl | hr
          · simpa using hs
          · exact ih t hrec r hr

lemma labelLoop_label_decomp (rows : List (List String)) :
    ∀ (d : String → Option Nat) (out : List (String × ℚ)),
    Props.labelLoop rows d = .ok out →
    (∀ r ∈ rows, r.headD emptyStr ≠ Nbo.hSym) →
    ∀ q ∈ out, ∃ (s : String) (k : Nat), s ≠ Nbo.hSym ∧ q.1 = s ++ toString k := by
  induction rows with
  | nil =>
    intro d out h _ q hq
    simp only [Props.labelLoop, Except.ok.injEq] at h
    subst h
    exact absurd hq (by simp)
  | cons row rest ih =>
    intro d out h hrows q hq
    rcases ht : row[1]? with _ | ⟨ctok⟩
    · simp [Props.labelLoop, ht] at h
    · rcases hf : pyFloat ctok with e | c
      · simp [Props.labelLoop, ht, hf] at h
      · cases row with
        | nil => simp at ht
        | cons x xs =>
          rcases hrec : Props.labelLoop rest
              (fun t => if t = x then some ((d x).getD 0 + 1) else d t) with e | r
          · simp [Props.labelLoop, ht, hf, hrec] at h
          · simp only [Props.labelLoop, ht, hf, List.head?_cons, hrec,
              Except.ok.injEq] at h
            subst h
            simp only [List.mem_cons] at hq
            rcases hq with rfl | hq
            · refine ⟨x, (d x).getD 0 + 1, ?_, by simp⟩
              have := hrows (x :: xs) (by simp)
              simpa using this
            · exact ih _ r hrec (fun r' hr' => hrows r' (by simp [hr'])) q hq

lemma combineAux_keys (n : List (String × ℚ)) :
    ∀ (g p : List (String × ℚ)) (acc out : List (String × List ℚ)),
    Nbo.combineAux n g p acc = .ok out →
    ∀ q ∈ out, (∃ c, (q.1, c) ∈ n) ∨ q.1 ∈ acc.map Prod.fst := by
  induction n with
  | nil =>
    intro g p acc out h q hq
    simp only [Nbo.combineAux, Except.ok.injEq] at h
    subst h
    exact Or.inr (List.mem_map_of_mem Prod.fst hq)
  | cons a ns ih =>
    intro g p acc out h q hq
    cases g with
    | nil => simp [Nbo.combineAux] at h
    | cons b gs =>
      by_cases h1 : a.1 = b.1
      · cases p with
        | nil => simp [Nbo.combineAux, if_pos h1] at h
        | cons c ps =>
          by_cases h2 : a.1 = c.1
          · simp only [Nbo.combineAux, if_pos h1, if_pos h2] at h
            rcases ih gs ps _ out h q hq with hk | hk
            · obtain ⟨v, hv⟩ := hk
              exact Or.inl ⟨v, by simp [hv]⟩
            · unfold dictInsert at hk
              split at hk
              · rw [List.map_map, List.mem_map] at hk
                obtain ⟨q', hq', hkey⟩ := hk
                by_cases he : q'.1 = a.1
                · refine Or.inl ⟨a.2, ?_⟩
                  have hqa : q.1 = a.1 := by
                    simp only [Function.comp_apply, if_pos he] at hkey
                    exact hkey.symm
                  simp [hqa]
                · refine Or.inr ?_
                  have hqq : q.1 = q'.1 := by
                    simp only [Function.comp_apply, if_neg he] at hkey
                    exact hkey.symm
                  rw [hqq]
                  exact List.mem_map_of_mem Prod.fst hq'
              · simp only [List.map_append, List.mem_append] at hk
                rcases hk with hk | hk
                · exact Or.inr hk
                · refine Or.inl ⟨a.2, ?_⟩
                  simp only [List.map_cons, List.map_nil, List.mem_singleton] at hk
                  simp [hk]
          · simp [Nbo.combineAux, if_pos h1, if_neg h2] at h
      · simp [Nbo.combineAux, if_neg h1] at h

/-- C9: hydrogen-freeness is preserved from parsing through writing.
Every entry of an NBO-parsed charge table comes from a source row whose
element token is not "H" and is labelled by that row's element and
serial tokens; every entry of a Mulliken-parsed charge table is labelled
by a non-"H" element symbol and its counter; every entry of a combined
table is keyed by a label of the (hydrogen-free) neutral table; and the
local-index loop leaves the output row keys unchanged — so no hydrogen
row can appear in any parsed table, combined table, or output row. -/
theorem hydrogen_free_pipeline :
    (∀ rows out, Nbo.parse_rows rows = .ok out →
      ∀ q ∈ out, ∃ r ∈ rows, r.headD emptyStr ≠ Nbo.hSym ∧
        q.1 = r.headD emptyStr ++ r.getD 1 emptyStr) ∧
    (∀ (rows : List (List String)) (out : List (String × ℚ)),
      Props.parse_rows rows = .ok out →
      ∀ q ∈ out, ∃ (s : String) (k : Nat), s ≠ Nbo.hSym ∧ q.1 = s ++ toString k) ∧
    (∀ n g p out, Nbo.combine_tables n g p = .ok out →
      ∀ q ∈ out, ∃ c, (q.1, c) ∈ n) ∧
    (∀ gNuc gElec t, (Nbo.add_local_electro gNuc gElec t).map Prod.fst =
      t.map Prod.fst) := by
  refine ⟨nbo_parse_rows_mem, fun rows out h => ?_, fun n g p out h q hq => ?_, ?_⟩
  · unfold Props.parse_rows at h
    rcases hfil : Props.filterNonH (rows.map (fun r => r.drop 1)) with e | t
    · rw [hfil] at h
      simp at h
    · rw [hfil] at h
      exact labelLoop_label_decomp t _ out h (filterNonH_mem _ t hfil)
  · rcases combineAux_keys n g p [] out h q hq with hk | hk
    · exact hk
    · exact absurd hk (by simp)
  · intro gNuc gElec t
    simp [Nbo.add_local_electro]

theorem hydrogen_free_pipeline_witness :
    ∃ r ∈ [["H", "1", "9"], ["C", "2", "3"]], r.headD emptyStr ≠ Nbo.hSym ∧
      ((("C2" : String), (3 : ℚ)) : String × ℚ).1 =
        r.headD emptyStr ++ r.getD 1 emptyStr :=
  hydrogen_free_pipeline.1 [["H", "1", "9"], ["C", "2", "3"]] [("C2", 3)]
    (by simp [Nbo.parse_rows, Nbo.hSym, pyFloat, digitsToNat, Except.map])
    ("C2", 3) (by simp)

/-- Pure reading of the Mulliken labelling loop: the labels produced
from a list of element symbols, threading the same counter state as
`labelLoop`. -/
def loopLabels : List String → (String → Option Nat) → List String
  | [], _ => []
  | s :: rest, d =>
    let n := (d s).getD 0 + 1
    (s ++ toString n) :: loopLabels rest (fun t => if t = s then some n else d t)

/-- The labelling the specification describes: each position's element
symbol suffixed with the number of occurrences of that symbol among the
positions up to and including it. -/
def specOccLabels (syms : List String) : List String :=
  (List.range syms.length).map (fun i =>
    syms.getD i emptyStr ++
      toString (((syms.take (i + 1)).filter (fun t => t == syms.getD i emptyStr)).length))

lemma labelLoop_map_fst (rows : List (List String)) :
    ∀ (d : String → Option Nat) (out : List (String × ℚ)),
    Props.labelLoop rows d = .ok out →
    out.map Prod.fst = loopLabels (rows.map (fun r => r.headD emptyStr)) d := by
  induction rows with
  | nil =>
    intro d out h
    simp only [Props.labelLoop, Except.ok.injEq] at h
    subst h
    simp [loopLabels]
  | cons row rest ih =>
    intro d out h
    rcases ht : row[1]? with _ | ⟨ctok⟩
    · simp [Props.labelLoop, ht] at h
    · rcases hf : pyFloat ctok with e | c
      · simp [Props.labelLoop, ht, hf] at h
      · cases row with
        | nil => simp at ht
        | cons x xs =>
          rcases hrec : Props.labelLoop rest
              (fun t => if t = x then some ((d x).getD 0 + 1) else d t) with e | r
          · simp [Props.labelLoop, ht, hf, hrec] at h
          · simp only [Props.labelLoop, ht, hf, List.head?_cons, hrec,
              Except.ok.injEq] at h
            subst h
            simp only [List.map_cons, List.headD_cons, loopLabels]
            rw [ih _ r hrec]

lemma loopLabels_count (syms : List String) :
    ∀ d : String → Option Nat, loopLabels syms d =
      (List.range syms.length).map (fun i =>
        syms.getD i emptyStr ++ toString ((d (syms.getD i emptyStr)).getD 0 +
          ((syms.take (i + 1)).filter (fun t => t == syms.getD i emptyStr)).length)) := by
  induction syms with
  | nil => intro d; simp [loopLabels]
  | cons s rest ih =>
    intro d
    simp only [loopLabels, List.length_cons, List.range_succ_eq_map,
      List.map_cons, List.map_map]
    congr 1
    · simp [List.take_succ_cons, List.filter_cons]
    · rw [ih]
      apply List.map_congr_left
      intro i _
      simp only [Function.comp_apply, List.getD_cons_succ, List.take_succ_cons,
        List.filter_cons, beq_iff_eq]
      by_cases hx : rest.getD i emptyStr = s
      · rw [hx]
        simp only [if_pos rfl, if_true, Option.getD_some, List.length_cons,
          Nat.succ_eq_add_one]
        congr 2
        omega
      · rw [if_neg hx, if_neg (fun hc => hx hc.symm)]

lemma filterNonH_eq (rows : List (List String)) :
    ∀ out, Props.filterNonH rows = .ok out →
    out = rows.filter (fun r => !(r.headD emptyStr == Nbo.hSym)) := by
  induction rows with
  | nil =>
    intro out h
    simp only [Props.filterNonH, Except.ok.injEq] at h
    subst h
    rfl
  | cons row rest ih =>
    intro out h
    cases row with
    | nil => simp [Props.filterNonH] at h
    | cons x xs =>
      rcases hrec : Props.filterNonH rest with e | t
      · simp [Props.filterNonH, hrec] at h
      · simp only [Props.filterNonH, List.head?_cons, hrec, Except.ok.injEq] at h
        subst h
        by_cases hs : x = Nbo.hSym
        · rw [if_pos hs]
          rw [ih t hrec]
          have hb : ((x :: xs).headD emptyStr == Nbo.hSym) = true := by
            simp [hs]
          simp [List.filter_cons, hb]
          rw [if_pos hs]
        · rw [if_neg hs]
          rw [ih t hrec]
          have hb : ((x :: xs).headD emptyStr == Nbo.hSym) = false := by
            simpa using hs
          simp [List.filter_cons, hb]
          rw [if_neg hs]

lemma nbo_parse_labels (rows : List (List String)) :
    ∀ out, Nbo.parse_rows rows = .ok out →
    out.map Prod.fst = (rows.filter (fun r => !(r.headD emptyStr == Nbo.hSym))).map
      (fun r => r.headD emptyStr ++ r.getD 1 emptyStr) := by
  induction rows with
  | nil =>
    intro out h
    simp only [Nbo.parse_rows, Except.ok.injEq] at h
    subst h
    rfl
  | cons row rest ih =>
    intro out h
    cases row with
    | nil => simp [Nbo.parse_rows] at h
    | cons x xs =>
      by_cases hs : x = Nbo.hSym
      · simp only [Nbo.parse_rows, List.head?_cons, if_pos hs] at h
        have hbeq : ((x :: xs).headD emptyStr == Nbo.hSym) = true := by
          simp [hs]
        rw [List.filter_cons]
        simp only [hbeq, Bool.not_true, Bool.false_eq_true, if_false]
        exact ih out h
      · rcases ht2 : (x :: xs)[1]? with _ | ⟨t2⟩
        · simp [Nbo.parse_rows, ht2, if_neg hs] at h
        · rcases ht3 : (x :: xs)[2]? with _ | ⟨t3⟩
          · simp [Nbo.parse_rows, ht2, ht3, if_neg hs] at h
          · rcases hf : pyFloat t3 with e | c
            · simp [Nbo.parse_rows, ht2, ht3, hf, if_neg hs] at h
            · rcases hrec : Nbo.parse_rows rest with e | out'
              · simp [Nbo.parse_rows, ht2, ht3, hf, hrec, if_neg hs,
                  Except.map] at h
              · simp only [Nbo.parse_rows, List.head?_cons, if_neg hs, ht2, ht3,
                  hf, hrec, Except.map, Except.ok.injEq] at h
                subst h
                have hbeq : ((x :: xs).headD emptyStr == Nbo.hSym) = false := by
                  simpa using hs
                rw [List.filter_cons]
                simp only [hbeq, Bool.not_false, if_true]
                rw [List.map_cons, List.map_cons]
                rw [ih out' hrec]
                have hgd : (x :: xs).getD 1 emptyStr = t2 := by
                  rw [List.getD_eq_getElem?_getD, ht2]
                  rfl
                rw [List.headD_cons, hgd]

/-- C6 (amended): the two parsers label atoms differently.  The Mulliken
parser of `write_electro_properties.py` labels each retained
(non-hydrogen) row with its element symbol suffixed by the per-element
occurrence count so far (counter reset per table, one counter per
distinct symbol), as the claim states.  The NBO parser of
`write_electro_nbo.py`, however, suffixes the element symbol with the
row's second token — the atom's serial number in the log — not a
per-element occurrence index (see `nbo_label_not_occurrence_cex`). -/
theorem label_scheme_per_variant :
    (∀ (rows : List (List String)) (out : List (String × ℚ)),
      Props.parse_rows rows = .ok out →
      out.map Prod.fst = specOccLabels
        (((rows.map (fun r => r.drop 1)).filter
          (fun r => !(r.headD emptyStr == Nbo.hSym))).map (fun r => r.headD emptyStr))) ∧
    (∀ (rows : List (List String)) (out : List (String × ℚ)),
      Nbo.parse_rows rows = .ok out →
      out.map Prod.fst = (rows.filter (fun r => !(r.headD emptyStr == Nbo.hSym))).map
        (fun r => r.headD emptyStr ++ r.getD 1 emptyStr)) := by
  refine ⟨fun rows out h => ?_, nbo_parse_labels⟩
  unfold Props.parse_rows at h
  rcases hfil : Props.filterNonH (rows.map (fun r => r.drop 1)) with e | t
  · rw [hfil] at h
    simp at h
  · rw [hfil] at h
    have hmap := labelLoop_map_fst t _ out h
    have hteq := filterNonH_eq _ t hfil
    subst hteq
    rw [hmap, loopLabels_count]
    unfold specOccLabels
    apply List.map_congr_left
    intro i _
    simp

theorem label_scheme_per_variant_witness :
    ([(("C1" : String), (4 : ℚ)), ("C2", 8)]).map Prod.fst = specOccLabels
        ((([["1", "C", "4"], ["2", "C", "8"]].map (fun r => r.drop 1)).filter
          (fun r => !(r.headD emptyStr == Nbo.hSym))).map (fun r => r.headD emptyStr)) :=
  label_scheme_per_variant.1 [["1", "C", "4"], ["2", "C", "8"]] [("C1", 4), ("C2", 8)]
    (by
      have h1 : toString (1 : Nat) = "1" := by decide
      have h2 : toString (2 : Nat) = "2" := by decide
      simp [Props.parse_rows, Props.filterNonH, Props.labelLoop, Nbo.hSym,
        pyFloat, digitsToNat, h1, h2])

/-- C6 counterexample: the NBO parser labels the table
`[["N", "1", ...], ["C", "2", ...]]` as `N1, C2` — the suffix is the
atom serial number from the log's second column.  The per-element
occurrence labelling the claim requires would label the first (and only)
carbon `C1`, so the claim fails on the `write_electro_nbo.py` parser. -/
theorem nbo_label_not_occurrence_cex :
    Nbo.parse_rows [["N", "1", "2"], ["C", "2", "3"]] = .ok [("N1", 2), ("C2", 3)] ∧
    specOccLabels ["N", "C"] = ["N1", "C1"] ∧
    (["N1", ("C2" : String)] ≠ ["N1", "C1"]) := by
  refine ⟨?_, by decide, by decide⟩
  simp [Nbo.parse_rows, Nbo.hSym, pyFloat, digitsToNat, Except.map]

/-- C3 counterexample: at `(homo, lumo) = (-1, 1)` the scaled energies
differ (`27.212*1 ≠ 27.212*(-1)`) so the claim applies, but the
electronegativity is zero, hence the electrophilicity is zero and
`get_properties` raises `ZeroDivisionError` at
`1 / global_electrophilicity` instead of returning the five values. -/
theorem zero_electronegativity_fails_cex :
    ((27.212 : ℚ) * 1 ≠ 27.212 * (-1)) ∧
    Nbo.get_properties (-1) 1 = .error PyErr.zeroDivision := by
  constructor
  · norm_num
  · norm_num [Nbo.get_properties]
